import Mathlib

/-!
# Verification of the pocketsearch query-composition and connection-arbitration layer

This development shallowly embeds the parts of `pocketsearch` (file
`src/pocketsearch/__init__.py`) that the verified properties talk about:

* the `Unicode61` tokenizer emulator (`is_tokenchar`, `tokenize`),
* the `Filter`/`MatchFilter` escaping of full-text operands (`_escape`),
* the lookup validation of `PocketSearch.get_arguments` with the `LOOKUPS` registry,
* the `Q`/`QExpr` boolean-expression composition (`__or__`/`__and__`),
* `Query.order_by`, `Query.__getitem__`, `Query._adapt_union_queries`,
* `PocketSearch._clear_kwargs` and `PocketSearch.search` dispatch,
* the `ConnectionPool` writer arbitration, as a labelled transition system.

Python strings are embedded as `List Char`; Python `dict`s keeping insertion
order are embedded as association lists; mutation is embedded as explicit
state passing.  Fallible code returns `Except String`.
-/

namespace Pocketsearch

/-- Embedding of the Python values that flow through search keyword arguments:
strings, integers, booleans and `None`. -/
inductive PyVal where
  | str (s : String)
  | int (n : Int)
  | bool (b : Bool)
  | none
deriving DecidableEq, Repr

/-- Modelled from the spec: the Unicode general category of a character, as
returned by the external `unicodedata` collaborator, restricted to the ASCII
fragment that the verified properties exercise.  ASCII letters are `Lu`/`Ll`,
ASCII digits `Nd`, the blank `Zs`, parentheses `Ps`/`Pe`, the circumflex `Sk`;
every other character is mapped to a category outside the tokenizer's default
`L* N* Co` set, as no ASCII character is a letter, a number or `Co` besides
the former. -/
def ucCategory (c : Char) : String :=
  if c.isUpper then "Lu"
  else if c.isLower then "Ll"
  else if c.isDigit then "Nd"
  else if c = ' ' then "Zs"
  else if c = '(' then "Ps"
  else if c = ')' then "Pe"
  else if c = '^' then "Sk"
  else "Po"

/-- `Unicode61.is_tokenchar`: explicit separators win, then explicit extra
token characters, otherwise membership of the character's category (or its
first letter followed by `*`) in the configured category list. -/
def is_tokenchar (cat : Char → String) (categories : List String)
    (tokenchars : List String) (separators : List Char) (c : Char) : Bool :=
  if separators.contains c then false
  else if tokenchars.contains (String.mk [c]) then true
  else categories.contains (cat c) || categories.contains (String.mk ((cat c).data.take 1) ++ "*")

/-- The default category list of `Unicode61`: `"L* N* Co".split()`. -/
def defaultCategories : List String := ["L*", "N*", "Co"]

/-- `str.split(sep)` for a one-character separator: all segments, including
empty ones, in order.  `acc` is the reversed current segment. -/
def splitSepAux (sep : Char) : List Char → List Char → List (List Char)
  | [], acc => [acc.reverse]
  | c :: cs, acc =>
      if c = sep then acc.reverse :: splitSepAux sep cs []
      else splitSepAux sep cs (c :: acc)

/-- `Unicode61.tokenize`: keep characters listed in `keep`, keep token
characters, replace everything else by a blank, then split on blanks and
drop empty segments. -/
def tokenize (cat : Char → String) (categories : List String)
    (tokenchars : List String) (separators : List Char)
    (input : List Char) (keep : List Char) : List (List Char) :=
  let output := input.map (fun c =>
    if keep.contains c then c
    else if is_tokenchar cat categories tokenchars separators c then c
    else ' ')
  (splitSepAux ' ' output []).filter (fun t => t.length > 0)

/-- `Filter.__init__`: the control operators active for a set of lookup
names.  The phrase quote is always active; `*`, `^` and the parentheses are
added by the corresponding modifier lookups. -/
def filterOperators (names : List String) : List Char :=
  '"' :: ((if names.contains "allow_prefix" then ['*'] else [])
    ++ (if names.contains "allow_initial_token" then ['^'] else [])
    ++ (if names.contains "allow_boolean" then ['(', ')'] else []))

/-- `Filter.__init__`: the control keywords active for a set of lookup
names. -/
def filterKeywords (names : List String) : List (List Char) :=
  (if names.contains "allow_boolean" then [['A', 'N', 'D'], ['O', 'R']] else [])
    ++ (if names.contains "allow_negation" then [['N', 'O', 'T']] else [])

/-- The token-quoting loop of `MatchFilter._escape`.  `mtq` is the
`multiple_token_quote` flag: it is raised by a token starting with a quote,
lowered by a token ending with one, and suppresses quoting while raised.
A token is quoted unless it is a control keyword or contains a control
operator. -/
def escapeLoop (keywords : List (List Char)) (operators : List Char) :
    Bool → List (List Char) → List (List Char)
  | _, [] => []
  | mtq, t :: ts =>
      let m1 := if t.head? = some '"' then true else mtq
      let m2 := if t.getLast? = some '"' then false else m1
      let q := !(keywords.contains t) && operators.all (fun op => !(t.contains op))
      (if q && !m2 then '"' :: (t ++ ['"']) else t) :: escapeLoop keywords operators m2 ts

/-- `" ".join(tokens)`. -/
def joinSpace : List (List Char) → List Char
  | [] => []
  | [t] => t
  | t :: ts => t ++ ' ' :: joinSpace ts

/-- `MatchFilter._escape`: tokenize the value keeping the active operators,
run the quoting loop, and render the empty token list as `""`. -/
def matchEscape (cat : Char → String) (categories : List String)
    (tokenchars : List String) (separators : List Char)
    (keywords : List (List Char)) (operators : List Char)
    (value : List Char) : List Char :=
  let toks := escapeLoop keywords operators false
    (tokenize cat categories tokenchars separators value operators)
  if toks.isEmpty then ['"', '"'] else joinSpace toks

/-- `MatchFilter.to_sql`: `field:<escaped value>`. -/
def matchToSql (cat : Char → String) (categories : List String)
    (tokenchars : List String) (separators : List Char)
    (keywords : List (List Char)) (operators : List Char)
    (fieldName : List Char) (value : List Char) : List Char :=
  fieldName ++ ':' :: matchEscape cat categories tokenchars separators keywords operators value

/-! ## The lookup registry and `PocketSearch.get_arguments` -/

/-- The data kinds of the schema field classes that occur in the `LOOKUPS`
registry (plus the remaining concrete `Field` subclasses). -/
inductive FieldKind where
  | intK
  | textK
  | realK
  | numericK
  | blobK
  | dateK
  | datetimeK
deriving DecidableEq, Repr

/-- The `LOOKUPS` registry: lookup name to the field classes that, per the
registry, may use it (`eq` carries the empty list, standing for every
kind). -/
def LOOKUPS : List (String × List FieldKind) :=
  [("eq", []),
   ("allow_boolean", [.textK]),
   ("allow_negation", [.textK]),
   ("allow_prefix", [.textK]),
   ("allow_initial_token", [.textK]),
   ("gte", [.intK]),
   ("lte", [.intK]),
   ("gt", [.intK]),
   ("lt", [.intK]),
   ("year", [.dateK, .datetimeK]),
   ("month", [.dateK, .datetimeK]),
   ("day", [.dateK, .datetimeK]),
   ("hour", [.datetimeK]),
   ("minute", [.datetimeK])]

/-- `name in LOOKUPS`: the only test `get_arguments` performs on a lookup
name. -/
def lookupKnown (n : String) : Bool :=
  LOOKUPS.any (fun p => p.1 = n)

/-- A schema, for the purposes of argument validation: the declared field
names with their data kinds, in declaration order. -/
abbrev SchemaModel := List (String × FieldKind)

/-- `field_name in self.schema.fields`. -/
def schemaHas (schema : SchemaModel) (f : String) : Bool :=
  schema.any (fun p => p.1 = f)

/-- `kwarg.split("__")` — greedy left-to-right splitting on the two-character
separator, keeping empty segments.  `acc` is the reversed current segment. -/
def splitDunderAux : List Char → List Char → List (List Char)
  | [], acc => [acc.reverse]
  | '_' :: '_' :: rest, acc => acc.reverse :: splitDunderAux rest []
  | c :: rest, acc => splitDunderAux rest (c :: acc)

/-- `kwarg.split("__")` on a Python string. -/
def kwargSplit (k : String) : List String :=
  (splitDunderAux k.data []).map (fun l => String.mk l)

/-- `PocketSearch.Lookup`: a list of lookup-operator names with the raw
value. -/
structure Lookup where
  names : List String
  value : PyVal
deriving DecidableEq, Repr

/-- The field name a keyword argument refers to: `comp[0]`. -/
def kwargField (k : String) : String :=
  (kwargSplit k).headD ""

/-- The lookup names a keyword argument carries: `comp[1:]` when present,
otherwise the implicit `eq`. -/
def kwargNames (k : String) : List String :=
  let comp := kwargSplit k
  if comp.length > 1 then comp.tail else ["eq"]

/-- The `referenced_fields` dictionary update of `get_arguments`: append the
lookup to the field's entry, creating the entry at the end on first use
(Python dicts keep insertion order). -/
def addRef (rf : List (String × List Lookup)) (f : String) (lu : Lookup) :
    List (String × List Lookup) :=
  if rf.any (fun p => p.1 = f) then
    rf.map (fun p => if p.1 = f then (p.1, p.2 ++ [lu]) else p)
  else rf ++ [(f, [lu])]

/-- The first loop of `get_arguments`: build `referenced_fields` from the
keyword arguments; a qualified keyword is a `FieldError` when
`for_search` is false. -/
def buildRefs (for_search : Bool) :
    List (String × PyVal) → List (String × List Lookup) →
    Except String (List (String × List Lookup))
  | [], rf => .ok rf
  | (k, v) :: rest, rf =>
      let comp := kwargSplit k
      if comp.length > 1 then
        if for_search = false then
          .error "Lookups are not allowed in the context of inserts and updates"
        else
          buildRefs for_search rest (addRef rf (comp.headD "") ⟨comp.tail, v⟩)
      else
        buildRefs for_search rest (addRef rf (comp.headD "") ⟨["eq"], v⟩)

/-- The validation loop of `get_arguments`: every referenced field must be a
schema field and every lookup name must be a key of `LOOKUPS`.  Note that the
field's data kind is never compared with the registry entry. -/
def validateRefs (schema : SchemaModel) :
    List (String × List Lookup) → Except String Unit
  | [] => .ok ()
  | (f, lus) :: rest =>
      if schemaHas schema f = false then
        .error ("Unknown field '" ++ f ++ "' - it is not defined in the schema.")
      else if lus.all (fun lu => lu.names.all lookupKnown) = false then
        .error ("Unknown lookup in field '" ++ f ++ "'")
      else validateRefs schema rest

/-- The final loop of `get_arguments`: walk the schema fields in order, fail
on a missing field outside search mode, and pair each referenced field with
its lookups. -/
def buildArgs (rf : List (String × List Lookup)) (for_search : Bool)
    (id_field : String) :
    SchemaModel → Except String (List (String × List Lookup))
  | [] => .ok []
  | (fname, _) :: rest =>
      if rf.any (fun p => p.1 = fname) = false ∧ for_search = false ∧
          fname ≠ id_field ∧ fname ≠ "rank" then
        .error ("Missing field '" ++ fname ++ "' in keyword arguments.")
      else
        match buildArgs rf for_search id_field rest with
        | .error e => .error e
        | .ok tail =>
            match rf.find? (fun p => p.1 = fname) with
            | some p => .ok (p :: tail)
            | none => .ok tail

/-- `PocketSearch.get_arguments`: extract fields and lookups from keyword
arguments, validate them, and return the argument list. -/
def getArguments (schema : SchemaModel) (kwargs : List (String × PyVal))
    (for_search : Bool) (id_field : String) :
    Except String (List (String × List Lookup)) := do
  let rf ← buildRefs for_search kwargs []
  let _ ← validateRefs schema rf
  buildArgs rf for_search id_field schema

/-! ## `PocketSearch._clear_kwargs` and the `search` dispatch -/

/-- `PocketSearch._clear_kwargs` on one value: an empty string or `None`
becomes the two-character string `""`; everything else is kept. -/
def clearKwarg : PyVal → PyVal
  | .str s => if s.length > 0 then .str s else .str "\"\""
  | .none => .str "\"\""
  | v => v

/-- `PocketSearch._clear_kwargs` on the keyword-argument dictionary. -/
def clearKwargs (kwargs : List (String × PyVal)) : List (String × PyVal) :=
  kwargs.map (fun p => (p.1, clearKwarg p.2))

/-- The two ways a `search` call resolves: a keyword-lookup argument list or
a list of Q-expression argument lists, each tagged with its connective. -/
inductive SearchPlan where
  | kwquery (arguments : List (String × List Lookup))
  | qquery (q_arguments : List (Option Bool × List (String × List Lookup)))
deriving Repr

/-- `PocketSearch.search`: mixing a positional Q expression with keyword
lookups is a `QueryError` raised before anything else happens; otherwise the
keyword path (or the Q path) is validated through `get_arguments`.  A Q
expression is given as its `QExpr` list: connective tag and keyword
dictionary per node. -/
def search (schema : SchemaModel) (id_field : String)
    (args : List (Option Bool × List (String × PyVal)))
    (kwargs : List (String × PyVal)) : Except String SearchPlan :=
  if args.length > 0 ∧ kwargs.length > 0 then
    .error "Cannot mix Q objects and keyword arguments."
  else
    match args with
    | [] => do
        let arguments ← getArguments schema (clearKwargs kwargs) true id_field
        .ok (.kwquery arguments)
    | _ => do
        let q_arguments ← args.mapM (fun qe => do
          let a ← getArguments schema (clearKwargs qe.2) true id_field
          pure (qe.1, a))
        .ok (.qquery q_arguments)

/-! ## `Q` and `QExpr`: boolean composition with in-place mutation

`QExpr` nodes live on a heap addressed by `Nat`; a `Q` object holds the node
references in order.  `__or__`/`__and__` retag the right operand's nodes in
place, append the references to the left operand's list and return the left
operand. -/

/-- The connective tag of a `QExpr`: `None`, `And` or `Or`. -/
inductive Conn where
  | and
  | or
deriving DecidableEq, Repr

/-- Heap contents of one `QExpr` node: its connective tag and its (single)
keyword argument dictionary. -/
structure QExprData where
  operator : Option Conn
  kwargs : List (String × PyVal)
deriving Repr

/-- A `Q` object: an object identity plus the references of its `QExpr`
nodes, in order. -/
structure QObj where
  id : Nat
  q_exprs : List Nat
deriving DecidableEq, Repr

/-- The `QExpr` node heap. -/
abbrev QHeap := Nat → QExprData

/-- Retag every node referenced in `ids` with connective `c`, in place. -/
def setOps (h : QHeap) (ids : List Nat) (c : Conn) : QHeap :=
  fun n => if ids.contains n then { h n with operator := some c } else h n

/-- `Q.__or__`: retag `b`'s nodes with `Or`, append their references to `a`
and return `a` itself. -/
def qOr (h : QHeap) (a b : QObj) : QHeap × QObj :=
  (setOps h b.q_exprs .or, { a with q_exprs := a.q_exprs ++ b.q_exprs })

/-- `Q.__and__`: retag `b`'s nodes with `And`, append their references to
`a` and return `a` itself. -/
def qAnd (h : QHeap) (a b : QObj) : QHeap × QObj :=
  (setOps h b.q_exprs .and, { a with q_exprs := a.q_exprs ++ b.q_exprs })

/-- Write one `QExpr` node. -/
def writeNode (h : QHeap) (n : Nat) (d : QExprData) : QHeap :=
  fun m => if m = n then d else h m

/-- A configuration of the `Q` API: the node heap and the live `Q`
objects. -/
structure QConfig where
  heap : QHeap
  objs : List QObj

/-- A node reference not used by any live object. -/
def freshNode (cfg : QConfig) (n : Nat) : Prop :=
  ∀ o ∈ cfg.objs, n ∉ o.q_exprs

/-- An object identity not used by any live object. -/
def freshObjId (cfg : QConfig) (i : Nat) : Prop :=
  ∀ o ∈ cfg.objs, o.id ≠ i

/-- The operations of the `Q` API.  `newQ` is `Q(**kwargs)`: it allocates
one `QExpr` node with an unset connective.  `compose` is `a | b` or `a & b`
on two distinct live objects (composing an object with itself iterates a
list while appending to it and never terminates, so it yields no result
state): `b`'s nodes are retagged in place and appended to `a`'s list, and
every reference to `a` sees the longer list. -/
inductive QStep : QConfig → QConfig → Prop where
  | newQ (cfg : QConfig) (oid nid : Nat) (kw : List (String × PyVal)) :
      freshObjId cfg oid → freshNode cfg nid →
      QStep cfg ⟨writeNode cfg.heap nid ⟨Option.none, kw⟩, ⟨oid, [nid]⟩ :: cfg.objs⟩
  | compose (cfg : QConfig) (c : Conn) (a b : QObj) :
      a ∈ cfg.objs → b ∈ cfg.objs → a.id ≠ b.id →
      QStep cfg ⟨setOps cfg.heap b.q_exprs c,
        cfg.objs.map (fun o => if o.id = a.id then ⟨a.id, a.q_exprs ++ b.q_exprs⟩ else o)⟩

/-- The empty starting configuration. -/
def initQConfig : QConfig := ⟨fun _ => ⟨Option.none, []⟩, []⟩

/-- Configurations the `Q` API can reach. -/
inductive QReachable : QConfig → Prop where
  | init : QReachable initQConfig
  | step {c c1} : QReachable c → QStep c c1 → QReachable c1

/-- The invariant of reachable `Q` configurations: live object identities
are distinct, and a node whose connective is still unset belongs to at most
one live object. -/
def QInv (cfg : QConfig) : Prop :=
  (cfg.objs.map QObj.id).Nodup ∧
  ∀ o ∈ cfg.objs, ∀ o1 ∈ cfg.objs, o.id ≠ o1.id →
    ∀ n ∈ o.q_exprs, (cfg.heap n).operator = Option.none → n ∉ o1.q_exprs

/-! ## The `Query` object: ordering, slicing and union adaptation -/

/-- One entry of `SQLQuery.v_order_by` as produced by `Query.order_by`: a
schema field name with the sort direction `"+"` or `"-"`. -/
structure OrderClause where
  field : String
  sort_dir : String
deriving DecidableEq, Repr

/-- `OrderBy.to_sql` direction choice for a field entry: `"+"` gives `ASC`,
`"-"` gives `DESC`, anything else falls back to `ASC`. -/
def sortDirSql (d : String) : String :=
  if d = "+" then "ASC" else if d = "-" then "DESC" else "ASC"

/-- The `SQLQuery` state the union adaptation manipulates: the order-by list
and the optional `(limit, offset)` pair. -/
structure SQLQueryS where
  v_order_by : List OrderClause
  v_limit_and_offset : Option (Int × Int)
deriving DecidableEq, Repr

/-- A cleared segment: no ordering, no limit. -/
def clearedSQL (_s : SQLQueryS) : SQLQueryS :=
  { v_order_by := [], v_limit_and_offset := none }

/-- The `Query` state relevant to ordering, slicing and unions. -/
structure QueryS where
  sql_query : SQLQueryS
  unions : List SQLQueryS
  is_aggregate_query : Bool
  default_order_by_set : Bool
deriving DecidableEq, Repr

/-- Parse one `order_by` argument: a leading `+` or `-` selects the
direction and is stripped from the field name; otherwise the direction
defaults to `+`. -/
def parseOrderArg (a : String) : OrderClause :=
  if a.data.head? = some '+' ∨ a.data.head? = some '-' then
    ⟨String.mk a.data.tail, String.mk (a.data.take 1)⟩
  else ⟨a, "+"⟩

/-- `Query.order_by`: for each argument, resolve the field against the
schema (raising on unknown fields), clear the order-by list exactly when the
constructor default is still in place, append the clause and lower the
default flag. -/
def queryOrderBy (schemaFields : List String) :
    QueryS → List String → Except String QueryS
  | q, [] => .ok q
  | q, a :: rest =>
      let oc := parseOrderArg a
      if schemaFields.contains oc.field = false then
        .error ("'" ++ oc.field ++ "' is not defined in this schema")
      else
        queryOrderBy schemaFields
          { q with
            sql_query :=
              { q.sql_query with
                v_order_by :=
                  (if q.default_order_by_set then [] else q.sql_query.v_order_by) ++ [oc] },
            default_order_by_set := false }
          rest

/-- Python `int(...)` on the values a slice bound can take: integers pass
through, booleans are `0`/`1`, strings parse with an optional sign, `None`
and unparseable strings fail. -/
def pyToInt : PyVal → Option Int
  | .int n => some n
  | .bool b => some (if b then 1 else 0)
  | .str s => s.toInt?
  | .none => Option.none

/-- `Query.__getitem__` on a slice: reset aggregate mode, convert both
bounds with `int(...)` — a failure on either is a `QueryError` — and set
`limit = stop`, `offset = start`. -/
def getitemSlice (q : QueryS) (start stop : PyVal) : Except String QueryS :=
  match pyToInt start, pyToInt stop with
  | some a, some b =>
      .ok { q with
            sql_query := { q.sql_query with v_limit_and_offset := some (b, a) },
            is_aggregate_query := false }
  | _, _ => .error "Slicing arguments must be positive integers and not None."

/-- `Query.__getitem__` on an integer index: reset aggregate mode, set
`limit = 1`, `offset = index`, and pick entry `0` of the executed result. -/
def getitemIndex (q : QueryS) (index : PyVal) : Except String (QueryS × Nat) :=
  match pyToInt index with
  | some i =>
      .ok ({ q with
             sql_query := { q.sql_query with v_limit_and_offset := some (1, i) },
             is_aggregate_query := false }, 0)
  | Option.none => .error "Index arguments must be positive integers and not None."

/-- The row window a `LIMIT limit OFFSET offset` clause selects from the
ordered result sequence. -/
def applyLimitOffset (docs : List α) (limit offset : Int) : List α :=
  (docs.drop offset.toNat).take limit.toNat

/-- `Query._adapt_union_queries`: when unions are present, the primary
ordering and limit are copied onto the last unioned segment (in aggregate
mode its ordering is cleared instead and its limit kept), every other
unioned segment and the primary segment are cleared. -/
def adaptUnionQueries (q : QueryS) : QueryS :=
  match q.unions.getLast? with
  | Option.none => { q with sql_query := clearedSQL q.sql_query }
  | some last =>
      let last1 :=
        if q.is_aggregate_query = false then
          { last with
            v_order_by := q.sql_query.v_order_by,
            v_limit_and_offset := q.sql_query.v_limit_and_offset }
        else { last with v_order_by := [] }
      { q with
        unions := q.unions.dropLast.map clearedSQL ++ [last1],
        sql_query := clearedSQL q.sql_query }

/-- The segments of the rendered union statement, primary first. -/
def segmentsOf (q : QueryS) : List SQLQueryS :=
  q.sql_query :: q.unions

/-! ## The connection arbiter (`ConnectionPool`) -/

/-- `ConnectionPool.POOL_MAX_DATABASES`. -/
def POOL_MAX_DATABASES : Nat := 150

/-- `ConnectionPool.POOL_CONNECTION_TIMEOUT` (seconds a writer waits). -/
def POOL_CONNECTION_TIMEOUT : Nat := 5

/-- Arbiter state: the registered connection ids in registration order, and
the multiset of ids whose writer token is currently held. -/
structure PoolState where
  registered : List String
  held : List String
deriving DecidableEq, Repr

/-- The slot-registration prefix of `get_connection`: an already-registered
id is left alone; otherwise the id is appended unless the pool already
tracks more than `POOL_MAX_DATABASES` databases, which is a
`ConnectionError` (`none`). -/
def registerSlot (s : PoolState) (id : String) : Option PoolState :=
  if s.registered.contains id then some s
  else if s.registered.length > POOL_MAX_DATABASES then none
  else some { s with registered := s.registered ++ [id] }

/-- Observable events of the arbiter. -/
inductive PoolLabel where
  | writerAcquired (id : String)
  | writerTimeout (id : String)
  | poolCapacityError (id : String)
  | readerAcquired (id : String)
  | released (id : String) (writeable : Bool)
deriving DecidableEq, Repr

/-- The arbiter's transition relation, one step per `get_connection` /
`release_connection` outcome.  A writer acquisition succeeds only when the
id's token is free; while it is held, only the timeout transition (the
`ConnectionError` after `POOL_CONNECTION_TIMEOUT`) is available to a second
writer.  Readers touch neither the registry nor the tokens.  A release by a
writer that holds the token frees it; a reader release is a no-op on the
arbiter state. -/
inductive PoolStep : PoolState → PoolLabel → PoolState → Prop where
  | writerAcquired (s : PoolState) (id : String) (s1 : PoolState) :
      registerSlot s id = some s1 → s1.held.count id = 0 →
      PoolStep s (.writerAcquired id) { s1 with held := id :: s1.held }
  | writerTimeout (s : PoolState) (id : String) (s1 : PoolState) :
      registerSlot s id = some s1 → 1 ≤ s1.held.count id →
      PoolStep s (.writerTimeout id) s1
  | poolCapacityError (s : PoolState) (id : String) :
      registerSlot s id = none →
      PoolStep s (.poolCapacityError id) s
  | readerAcquired (s : PoolState) (id : String) :
      PoolStep s (.readerAcquired id) s
  | releasedWriter (s : PoolState) (id : String) :
      1 ≤ s.held.count id →
      PoolStep s (.released id true) { s with held := s.held.erase id }
  | releasedReader (s : PoolState) (id : String) :
      PoolStep s (.released id false) s

/-- The arbiter starts empty. -/
def initPool : PoolState := ⟨[], []⟩

/-- States the arbiter can reach from the initial state. -/
inductive PoolReachable : PoolState → Prop where
  | init : PoolReachable initPool
  | step {s l s1} : PoolReachable s → PoolStep s l s1 → PoolReachable s1

/-- A two-object reachable configuration used as a concrete instance: two
fresh `Q` objects. -/
def demoQConfig : QConfig :=
  ⟨writeNode (writeNode (fun _ => ⟨Option.none, []⟩) 100 ⟨Option.none, [("text", .str "x")]⟩)
      101 ⟨Option.none, [("num", .int 1)]⟩,
   [⟨1, [101]⟩, ⟨0, [100]⟩]⟩

/-- One keyword argument is acceptable to `get_arguments`: its field is in
the schema and every lookup name it carries is a `LOOKUPS` key.  (The
field's data kind is deliberately absent here: the code never consults
it.) -/
def KwargOk (schema : SchemaModel) (k : String) : Prop :=
  schemaHas schema (kwargField k) = true ∧ ∀ n ∈ kwargNames k, lookupKnown n = true

/-- Every entry of a `referenced_fields` dictionary passes validation. -/
def RefsOk (schema : SchemaModel) (rf : List (String × List Lookup)) : Prop :=
  ∀ p ∈ rf, schemaHas schema p.1 = true ∧
    ∀ lu ∈ p.2, ∀ n ∈ lu.names, lookupKnown n = true

/-- The dictionary-building step of `get_arguments` as a fold step. -/
def refStep (acc : List (String × List Lookup)) (kv : String × PyVal) :
    List (String × List Lookup) :=
  addRef acc (kwargField kv.1) ⟨kwargNames kv.1, kv.2⟩

/-- The demonstration schema used for concrete instances: one full-text
`Text` field and the implicit integer id. -/
def demoSchema : SchemaModel := [("text", .textK), ("id", .intK)]

instance decKwargOk (schema : SchemaModel) (k : String) : Decidable (KwargOk schema k) := by
  unfold KwargOk
  infer_instance

/-! ## C7: mixing Q expressions and keyword lookups -/

/-- C7: every `search` call passing both a positional Q expression and at
least one keyword lookup raises `QueryError` immediately — no filter tree
of either kind is built. -/
theorem search_mixing_q_and_kwargs_raises (schema : SchemaModel) (id_field : String)
    (args : List (Option Bool × List (String × PyVal))) (kwargs : List (String × PyVal))
    (h1 : args ≠ []) (h2 : kwargs ≠ []) :
    search schema id_field args kwargs = .error "Cannot mix Q objects and keyword arguments." := by
  unfold search
  rw [if_pos ⟨List.length_pos.mpr h1, List.length_pos.mpr h2⟩]

/-- Witness for C7 at a concrete mixed call. -/
theorem search_mixing_q_and_kwargs_raises_witness :
    search [("text", .textK)] "id" [(Option.none, [("text", .str "a")])] [("text", .str "b")] =
      .error "Cannot mix Q objects and keyword arguments." :=
  search_mixing_q_and_kwargs_raises [("text", .textK)] "id"
    [(Option.none, [("text", .str "a")])] [("text", .str "b")]
    (by simp) (by simp)

/-! ## C6: empty and null lookup values -/

/-- C6: `_clear_kwargs` rewrites an empty-string or `None` value to the
two-character string `""`, and `MatchFilter` renders that value — under any
set of lookup names, since the phrase quote is always an active operator —
as the empty quoted string, so the full-text operand becomes the
always-false `field:""` instead of a malformed statement. -/
theorem empty_value_renders_empty_quoted_match (names : List String) (fieldName : List Char) :
    clearKwarg (.str "") = .str "\"\"" ∧
    clearKwarg PyVal.none = .str "\"\"" ∧
    matchEscape ucCategory defaultCategories [] []
      (filterKeywords names) (filterOperators names) "\"\"".data = ['"', '"'] ∧
    matchToSql ucCategory defaultCategories [] []
      (filterKeywords names) (filterOperators names) fieldName "\"\"".data =
      fieldName ++ [':', '"', '"'] := by
  have hkeep : (filterOperators names).contains '"' = true := by
    simp [filterOperators]
  have hesc : matchEscape ucCategory defaultCategories [] []
      (filterKeywords names) (filterOperators names) "\"\"".data = ['"', '"'] := by
    unfold matchEscape tokenize
    simp only [hkeep, List.map, if_pos]
    show (if (escapeLoop (filterKeywords names) (filterOperators names) false
      ((splitSepAux ' ' ['"', '"'] []).filter (fun t => t.length > 0))).isEmpty then _ else _) = _
    have hsplit : (splitSepAux ' ' ['"', '"'] []).filter (fun t => t.length > 0) = [['"', '"']] := by
      decide
    rw [hsplit]
    unfold escapeLoop
    simp [filterOperators, escapeLoop, joinSpace]
  exact ⟨rfl, rfl, hesc, by unfold matchToSql; rw [hesc]⟩

/-! ## C10: slice and index semantics of `Query.__getitem__` -/

/-- C10: a valid slice `[a:b]` stores `offset = a` and `limit = b` (the raw
stop bound, not the slice length `b - a`); a valid integer index `[i]`
stores `limit = 1`, `offset = i`, resets aggregate-count mode, and the
returned document is entry `0` of the executed window, i.e. the document at
offset `i` of the full ordered result. -/
theorem getitem_sets_limit_offset (q : QueryS) (a b i : Int) {α : Type} (docs : List α) :
    getitemSlice q (.int a) (.int b) =
      .ok { q with sql_query := { q.sql_query with v_limit_and_offset := some (b, a) },
                   is_aggregate_query := false } ∧
    getitemIndex q (.int i) =
      .ok ({ q with sql_query := { q.sql_query with v_limit_and_offset := some (1, i) },
                    is_aggregate_query := false }, 0) ∧
    (applyLimitOffset docs 1 i).head? = docs.get? i.toNat := by
  refine ⟨rfl, rfl, ?_⟩
  unfold applyLimitOffset
  have htake : ∀ (l : List α), (l.take 1).head? = l.head? := by
    intro l; cases l <;> rfl
  rw [show ((1 : Int).toNat) = 1 from rfl, htake]
  simp [List.head?_eq_getElem?, List.get?_eq_getElem?, List.getElem?_drop]

/-! ## C8: slice-bound validation of `Query.__getitem__` -/

/-- C8 counterexample: a negative slice bound is accepted — `int(-1)`
succeeds, so `Query[-1:5]` raises no `QueryError` although `-1` is not a
non-negative integer; the slice is stored as `limit = 5`, `offset = -1`. -/
theorem getitem_slice_negative_bound_accepted :
    getitemSlice ⟨⟨[], some (10, 0)⟩, [], false, true⟩ (.int (-1)) (.int 5) =
      .ok ⟨⟨[], some (5, -1)⟩, [], false, true⟩ ∧
    (-1 : Int) < 0 := by
  exact ⟨rfl, by decide⟩

/-- C8 (amended): slicing raises `QueryError` exactly when a bound is
missing (`None`) or fails `int(...)` conversion; any pair of convertible
bounds — negative values included — is accepted and stored as
`limit = stop`, `offset = start`. -/
theorem getitem_slice_error_iff (q : QueryS) (start stop : PyVal) :
    ((getitemSlice q start stop).isOk = false ↔
      pyToInt start = Option.none ∨ pyToInt stop = Option.none) ∧
    (∀ a b : Int, pyToInt start = some a → pyToInt stop = some b →
      getitemSlice q start stop =
        .ok { q with sql_query := { q.sql_query with v_limit_and_offset := some (b, a) },
                     is_aggregate_query := false }) := by
  constructor
  · unfold getitemSlice
    cases hs : pyToInt start <;> cases ht : pyToInt stop <;> simp [Except.isOk, Except.toBool]
  · intro a b ha hb
    unfold getitemSlice
    rw [ha, hb]

/-- Witness for C8: both halves of the amended statement at concrete
bounds. -/
theorem getitem_slice_error_iff_witness :
    ((getitemSlice ⟨⟨[], some (10, 0)⟩, [], false, true⟩ PyVal.none (.int 5)).isOk = false) ∧
    getitemSlice ⟨⟨[], some (10, 0)⟩, [], false, true⟩ (.int 2) (.int 7) =
      .ok ⟨⟨[], some (7, 2)⟩, [], false, true⟩ :=
  ⟨(getitem_slice_error_iff ⟨⟨[], some (10, 0)⟩, [], false, true⟩ PyVal.none (.int 5)).1.mpr
      (Or.inl rfl),
   (getitem_slice_error_iff ⟨⟨[], some (10, 0)⟩, [], false, true⟩ (.int 2) (.int 7)).2
      2 7 rfl rfl⟩

/-! ## C5: `Query.order_by` -/

/-- The flag-lowered case of `Query.order_by`: once the constructor default
has been overridden, each further clause is appended. -/
theorem queryOrderBy_append (schemaFields : List String) :
    ∀ (args : List String) (q : QueryS),
      q.default_order_by_set = false →
      (∀ a ∈ args, schemaFields.contains (parseOrderArg a).field = true) →
      queryOrderBy schemaFields q args =
        .ok { q with
              sql_query := { q.sql_query with
                v_order_by := q.sql_query.v_order_by ++ args.map parseOrderArg },
              default_order_by_set := false } := by
  intro args
  induction args with
  | nil =>
      intro q hflag _
      unfold queryOrderBy
      cases q with
      | mk sq u agg dflt =>
          cases sq with
          | mk ord lim => simp at hflag; subst hflag; simp
  | cons a rest ih =>
      intro q hflag hok
      unfold queryOrderBy
      rw [if_neg]
      · rw [hflag]
        simp only [if_neg Bool.false_ne_true]
        rw [ih _ rfl (fun x hx => hok x (List.mem_cons_of_mem a hx))]
        simp [List.append_assoc]
      · rw [hok a (List.mem_cons_self a rest)]
        simp

/-- C5 counterexample: two successive `.order_by` calls do not both replace —
the first call replaces the constructor default `+rank`, the second call
*appends*, leaving two clauses where the claim predicts one. -/
theorem order_by_second_call_appends :
    (do
      let q1 ← queryOrderBy ["a", "b", "rank"]
        ⟨⟨[⟨"rank", "+"⟩], some (10, 0)⟩, [], false, true⟩ ["+a"]
      queryOrderBy ["a", "b", "rank"] q1 ["-b"]) =
      .ok ⟨⟨[⟨"a", "+"⟩, ⟨"b", "-"⟩], some (10, 0)⟩, [], false, false⟩ ∧
    [OrderClause.mk "a" "+", OrderClause.mk "b" "-"] ≠ [OrderClause.mk "b" "-"] := by
  exact ⟨rfl, by decide⟩

/-- C5 (amended): only the *first* `.order_by` call replaces the
constructor's default relevance ordering (the clear happens exactly once,
while the default flag is set); every later call appends its clauses to the
current list.  A `+` prefix sorts ascending, `-` descending, and an
unprefixed key defaults to ascending. -/
theorem order_by_replace_once_then_append (schemaFields : List String)
    (q : QueryS) (a : String) (args : List String)
    (hok : ∀ x ∈ a :: args, schemaFields.contains (parseOrderArg x).field = true) :
    (q.default_order_by_set = true →
      queryOrderBy schemaFields q (a :: args) =
        .ok { q with
              sql_query := { q.sql_query with
                v_order_by := (a :: args).map parseOrderArg },
              default_order_by_set := false }) ∧
    (q.default_order_by_set = false →
      queryOrderBy schemaFields q (a :: args) =
        .ok { q with
              sql_query := { q.sql_query with
                v_order_by := q.sql_query.v_order_by ++ (a :: args).map parseOrderArg },
              default_order_by_set := false }) ∧
    parseOrderArg "+a" = ⟨"a", "+"⟩ ∧
    parseOrderArg "-b" = ⟨"b", "-"⟩ ∧
    parseOrderArg "c" = ⟨"c", "+"⟩ ∧
    sortDirSql "+" = "ASC" ∧ sortDirSql "-" = "DESC" := by
  refine ⟨?_, ?_, by decide, by decide, by decide, rfl, rfl⟩
  · intro hflag
    unfold queryOrderBy
    rw [if_neg, hflag]
    · simp only [if_pos]
      rw [queryOrderBy_append schemaFields args _ rfl
        (fun x hx => hok x (List.mem_cons_of_mem a hx))]
      simp
    · rw [hok a (List.mem_cons_self a args)]
      simp
  · intro hflag
    exact queryOrderBy_append schemaFields (a :: args) q hflag hok

/-- Witness for C5: the amended behavior at a concrete query. -/
theorem order_by_replace_once_then_append_witness :
    queryOrderBy ["a", "rank"] ⟨⟨[⟨"rank", "+"⟩], some (10, 0)⟩, [], false, true⟩ ["+a"] =
      .ok ⟨⟨[⟨"a", "+"⟩], some (10, 0)⟩, [], false, false⟩ :=
  (order_by_replace_once_then_append ["a", "rank"]
    ⟨⟨[⟨"rank", "+"⟩], some (10, 0)⟩, [], false, true⟩ "+a" []
    (by decide)).1 rfl

/-! ## C3: `Query._adapt_union_queries` -/

/-- C3 counterexample: in aggregate-count mode — `count()` on a unioned
query also builds a final statement through `_adapt_union_queries` — the
ordering is cleared on *every* segment, so zero ORDER BY clauses remain,
not exactly one; the last segment's own default limit is kept rather than
receiving a copy of the primary one. -/
theorem count_union_has_no_order_by :
    (segmentsOf (adaptUnionQueries
        ⟨⟨[⟨"rank", "+"⟩], some (10, 0)⟩, [⟨[⟨"rank", "+"⟩], some (10, 0)⟩], true, true⟩)).countP
      (fun s => !s.v_order_by.isEmpty) = 0 ∧
    (0 : Nat) ≠ 1 := by
  exact ⟨by decide, by decide⟩

/-- C3 (amended): for a composed query with at least one unioned sibling
that is *not* in aggregate-count mode, building the final statement leaves
exactly one segment carrying an ORDER BY list and exactly one carrying a
LIMIT/OFFSET pair: both are copied onto the last unioned segment, and the
primary query and every other segment are cleared.  (In aggregate-count
mode every segment's ordering is cleared instead.) -/
theorem adapt_union_unique_order_and_limit (q : QueryS)
    (hu : q.unions ≠ []) (hagg : q.is_aggregate_query = false)
    (hord : q.sql_query.v_order_by ≠ [])
    (hlim : q.sql_query.v_limit_and_offset.isSome = true) :
    ((segmentsOf (adaptUnionQueries q)).countP (fun s => !s.v_order_by.isEmpty) = 1) ∧
    ((segmentsOf (adaptUnionQueries q)).countP (fun s => s.v_limit_and_offset.isSome) = 1) ∧
    (adaptUnionQueries q).unions.getLast? = some
      ⟨q.sql_query.v_order_by, q.sql_query.v_limit_and_offset⟩ ∧
    (adaptUnionQueries q).sql_query = ⟨[], Option.none⟩ ∧
    (∀ s ∈ (adaptUnionQueries q).unions.dropLast, s = ⟨[], Option.none⟩) := by
  obtain ⟨last, hlast⟩ : ∃ last, q.unions.getLast? = some last := by
    cases hq : q.unions.getLast? with
    | none => exact absurd (List.getLast?_eq_none_iff.mp hq) hu
    | some l => exact ⟨l, rfl⟩
  have hadapt : adaptUnionQueries q =
      { q with
        unions := q.unions.dropLast.map clearedSQL ++
          [⟨q.sql_query.v_order_by, q.sql_query.v_limit_and_offset⟩],
        sql_query := clearedSQL q.sql_query } := by
    unfold adaptUnionQueries
    rw [hlast]
    simp [hagg]
  rw [hadapt]
  unfold segmentsOf
  refine ⟨?_, ?_, ?_, rfl, ?_⟩
  · rw [List.countP_cons_of_neg, List.countP_append, List.countP_eq_zero.mpr]
    · simp [List.countP_cons, hord, List.isEmpty_iff]
    · intro s hs
      rw [List.mem_map] at hs
      obtain ⟨x, _, rfl⟩ := hs
      simp [clearedSQL]
    · simp [clearedSQL]
  · rw [List.countP_cons_of_neg, List.countP_append, List.countP_eq_zero.mpr]
    · simp [List.countP_cons, hlim]
    · intro s hs
      rw [List.mem_map] at hs
      obtain ⟨x, _, rfl⟩ := hs
      simp [clearedSQL]
    · simp [clearedSQL]
  · simp
  · intro s hs
    rw [List.dropLast_concat, List.mem_map] at hs
    obtain ⟨x, _, rfl⟩ := hs
    rfl

/-- Witness for C3: the amended statement at a two-segment union with the
constructor defaults. -/
theorem adapt_union_unique_order_and_limit_witness :
    ((segmentsOf (adaptUnionQueries
        ⟨⟨[⟨"rank", "+"⟩], some (10, 0)⟩, [⟨[⟨"rank", "+"⟩], some (10, 0)⟩], false, true⟩)).countP
      (fun s => !s.v_order_by.isEmpty) = 1) ∧
    ((segmentsOf (adaptUnionQueries
        ⟨⟨[⟨"rank", "+"⟩], some (10, 0)⟩, [⟨[⟨"rank", "+"⟩], some (10, 0)⟩], false, true⟩)).countP
      (fun s => s.v_limit_and_offset.isSome) = 1) := by
  have h := adapt_union_unique_order_and_limit
    ⟨⟨[⟨"rank", "+"⟩], some (10, 0)⟩, [⟨[⟨"rank", "+"⟩], some (10, 0)⟩], false, true⟩
    (by decide) rfl (by decide) rfl
  exact ⟨h.1, h.2.1⟩

/-! ## C4: the connection arbiter -/

/-- Slot registration never touches the writer tokens. -/
theorem registerSlot_held {s : PoolState} {id : String} {t : PoolState}
    (h : registerSlot s id = some t) : t.held = s.held := by
  unfold registerSlot at h
  by_cases hc : s.registered.contains id
  · rw [if_pos hc] at h
    cases h
    rfl
  · rw [if_neg hc] at h
    by_cases hl : s.registered.length > POOL_MAX_DATABASES
    · rw [if_pos hl] at h
      cases h
    · rw [if_neg hl] at h
      cases h
      rfl

/-- In every reachable arbiter state, each index's writer token has at most
one holder. -/
theorem pool_held_count_le_one {s : PoolState} (h : PoolReachable s) :
    ∀ id, s.held.count id ≤ 1 := by
  induction h with
  | init => intro id; simp [initPool]
  | step _ hs ih =>
      cases hs with
      | writerAcquired id s1 hreg hcount =>
          intro id1
          have hh := registerSlot_held hreg
          by_cases hid : id1 = id
          · subst hid
            simp only [List.count_cons_self]
            rw [hcount]
          · rw [List.count_cons_of_ne hid, hh]
            exact ih id1
      | writerTimeout id s1 hreg _ =>
          intro id1
          rw [registerSlot_held hreg]
          exact ih id1
      | poolCapacityError id _ => exact ih
      | readerAcquired id => exact ih
      | releasedWriter id _ =>
          intro id1
          exact le_trans ((List.erase_sublist id _).count_le id1) (ih id1)
      | releasedReader id => exact ih

/-- C4: the arbiter never grants two simultaneous writer tokens for one
logical index: in every reachable state each token has at most one holder;
while it is held, no successful writer acquisition step exists for that
index and only the timeout step — the `ConnectionError` after
`POOL_CONNECTION_TIMEOUT = 5` — is available to a second writer; reader
acquisitions never change the arbiter state (readers never take the
token). -/
theorem writer_token_mutual_exclusion :
    (∀ s, PoolReachable s → ∀ id, s.held.count id ≤ 1) ∧
    (∀ s id s1, 1 ≤ s.held.count id → ¬ PoolStep s (.writerAcquired id) s1) ∧
    (∀ s id, s.registered.contains id = true → 1 ≤ s.held.count id →
      PoolStep s (.writerTimeout id) s) ∧
    (∀ s id s1, PoolStep s (.readerAcquired id) s1 → s1 = s) ∧
    POOL_CONNECTION_TIMEOUT = 5 := by
  refine ⟨fun s hs => pool_held_count_le_one hs, ?_, ?_, ?_, rfl⟩
  · intro s id s1 hheld hstep
    cases hstep with
    | writerAcquired id s2 hreg hcount =>
        rw [registerSlot_held hreg] at hcount
        omega
  · intro s id hc hheld
    have hreg : registerSlot s id = some s := by
      unfold registerSlot
      rw [if_pos hc]
    exact PoolStep.writerTimeout s id s hreg hheld
  · intro s id s1 hstep
    cases hstep
    rfl

/-- Witness for C4: with the token for `"db"` held, the successful
acquisition step is disabled and the timeout step is enabled; the initial
state satisfies the at-most-one-holder bound. -/
theorem writer_token_mutual_exclusion_witness :
    (¬ PoolStep ⟨["db"], ["db"]⟩ (.writerAcquired "db") ⟨["db"], ["db", "db"]⟩) ∧
    PoolStep ⟨["db"], ["db"]⟩ (.writerTimeout "db") ⟨["db"], ["db"]⟩ ∧
    initPool.held.count "db" ≤ 1 :=
  ⟨writer_token_mutual_exclusion.2.1 ⟨["db"], ["db"]⟩ "db" ⟨["db"], ["db", "db"]⟩ (by decide),
   writer_token_mutual_exclusion.2.2.1 ⟨["db"], ["db"]⟩ "db" (by decide) (by decide),
   writer_token_mutual_exclusion.1 initPool PoolReachable.init "db"⟩

/-! ## C9: `Q.__or__` / `Q.__and__` -/

/-- `setOps` leaves unlisted nodes alone. -/
theorem setOps_of_not_mem {h : QHeap} {ids : List Nat} {c : Conn} {n : Nat}
    (hn : n ∉ ids) : setOps h ids c n = h n := by
  unfold setOps
  rw [if_neg]
  simpa using hn

/-- `setOps` retags listed nodes and keeps their kwargs. -/
theorem setOps_of_mem {h : QHeap} {ids : List Nat} {c : Conn} {n : Nat}
    (hn : n ∈ ids) : setOps h ids c n = { h n with operator := some c } := by
  unfold setOps
  rw [if_pos]
  simpa using hn

/-- A node that still has no connective after `setOps` was not listed and
had none before. -/
theorem setOps_none {h : QHeap} {ids : List Nat} {c : Conn} {n : Nat}
    (hn : (setOps h ids c n).operator = Option.none) :
    n ∉ ids ∧ (h n).operator = Option.none := by
  by_cases hm : n ∈ ids
  · rw [setOps_of_mem hm] at hn
    cases hn
  · rw [setOps_of_not_mem hm] at hn
    exact ⟨hm, hn⟩

/-- Every reachable `Q` configuration satisfies the invariant: distinct
object identities, and no sharing of a node whose connective is unset. -/
theorem qreachable_inv {cfg : QConfig} (h : QReachable cfg) : QInv cfg := by
  induction h with
  | init =>
      exact ⟨by simp [initQConfig], by simp [initQConfig]⟩
  | step _ hs ih =>
      obtain ⟨ihN, ihJ⟩ := ih
      cases hs with
      | newQ oid nid kw hoid hnid =>
          constructor
          · simp only [List.map_cons]
            refine List.nodup_cons.mpr ⟨?_, ihN⟩
            intro hmem
            obtain ⟨o, ho, hoeq⟩ := List.mem_map.mp hmem
            exact hoid o ho hoeq
          · intro o ho o1 ho1 hne n hn hnone
            rcases List.mem_cons.mp ho with rfl | ho
            · simp only [List.mem_singleton] at hn
              subst hn
              rcases List.mem_cons.mp ho1 with rfl | ho1
              · exact absurd rfl hne
              · exact hnid o1 ho1
            · have hnnid : n ≠ nid := fun hEq => hnid o ho (hEq ▸ hn)
              simp only [writeNode] at hnone
              rw [if_neg hnnid] at hnone
              rcases List.mem_cons.mp ho1 with rfl | ho1
              · simp only [List.mem_singleton]
                exact hnnid
              · exact ihJ o ho o1 ho1 hne n hn hnone
      | compose c a b ha hb hab =>
          constructor
          · have hfun : (QObj.id ∘ fun o : QObj =>
                if o.id = a.id then (⟨a.id, a.q_exprs ++ b.q_exprs⟩ : QObj) else o) =
                QObj.id := by
              funext o
              by_cases hoa : o.id = a.id
              · simp [hoa]
              · simp [hoa]
            rw [List.map_map, hfun]
            exact ihN
          · intro o ho o1 ho1 hne n hn hnone
            obtain ⟨hnb, hheap⟩ := setOps_none hnone
            obtain ⟨p, hp, rfl⟩ := List.mem_map.mp ho
            obtain ⟨p1, hp1, rfl⟩ := List.mem_map.mp ho1
            by_cases hpa : p.id = a.id <;> by_cases hp1a : p1.id = a.id
            · rw [if_pos hpa, if_pos hp1a] at hne
              exact absurd rfl hne
            · rw [if_pos hpa] at hn
              rw [if_neg hp1a]
              have hna : n ∈ a.q_exprs := by
                rcases List.mem_append.mp hn with h1 | h1
                · exact h1
                · exact absurd h1 hnb
              exact ihJ a ha p1 hp1 (fun hEq => hp1a hEq.symm) n hna hheap
            · rw [if_neg hpa] at hn
              rw [if_pos hp1a]
              intro hmem
              rcases List.mem_append.mp hmem with h1 | h1
              · exact ihJ p hp a ha hpa n hn hheap h1
              · exact hnb h1
            · rw [if_neg hpa] at hn hne
              rw [if_neg hp1a] at hne ⊢
              exact ihJ p hp p1 hp1 hne n hn hheap

/-- C9: `a | b` and `a & b` return the left operand itself with `b`'s nodes
appended by reference: the result carries `a`'s identity, its node list is
`a`'s original list followed by `b`'s node references, each of `b`'s nodes
has its connective tag overwritten to `Or` respectively `And` (keyword
payload untouched) while all other nodes are untouched; and for `Q` objects
reachable through the API (where two distinct live objects never share a
node whose connective is still unset), the first node of `a` keeps its
unset connective. -/
theorem q_composition_mutates_left :
    (∀ (h : QHeap) (a b : QObj),
      (qOr h a b).2 = ⟨a.id, a.q_exprs ++ b.q_exprs⟩ ∧
      (qAnd h a b).2 = ⟨a.id, a.q_exprs ++ b.q_exprs⟩ ∧
      (∀ n ∈ b.q_exprs,
        ((qOr h a b).1 n).operator = some .or ∧
        ((qAnd h a b).1 n).operator = some .and ∧
        ((qOr h a b).1 n).kwargs = (h n).kwargs) ∧
      (∀ n, n ∉ b.q_exprs → (qOr h a b).1 n = h n ∧ (qAnd h a b).1 n = h n)) ∧
    (∀ cfg, QReachable cfg → ∀ a b, a ∈ cfg.objs → b ∈ cfg.objs → a.id ≠ b.id →
      ∀ n, a.q_exprs.head? = some n → (cfg.heap n).operator = Option.none →
        ((qOr cfg.heap a b).1 n).operator = Option.none ∧
        ((qAnd cfg.heap a b).1 n).operator = Option.none) := by
  constructor
  · intro h a b
    refine ⟨rfl, rfl, ?_, ?_⟩
    · intro n hn
      exact ⟨by rw [show (qOr h a b).1 n = _ from setOps_of_mem hn],
             by rw [show (qAnd h a b).1 n = _ from setOps_of_mem hn],
             by rw [show (qOr h a b).1 n = _ from setOps_of_mem hn]⟩
    · intro n hn
      exact ⟨setOps_of_not_mem hn, setOps_of_not_mem hn⟩
  · intro cfg hreach a b ha hb hab n hhead hnone
    have hmem : n ∈ a.q_exprs := by
      cases hq : a.q_exprs with
      | nil => rw [hq] at hhead; cases hhead
      | cons x xs =>
          rw [hq] at hhead
          cases hhead
          exact List.mem_cons_self _ _
    have hnb : n ∉ b.q_exprs := (qreachable_inv hreach).2 a ha b hb hab n hmem hnone
    exact ⟨by rw [show (qOr cfg.heap a b).1 n = _ from setOps_of_not_mem hnb]; exact hnone,
           by rw [show (qAnd cfg.heap a b).1 n = _ from setOps_of_not_mem hnb]; exact hnone⟩

/-- `demoQConfig` is reachable: allocate `Q(text="x")`, then
`Q(num=1)`. -/
theorem demoQConfig_reachable : QReachable demoQConfig := by
  have h1 : QStep initQConfig
      ⟨writeNode (fun _ => ⟨Option.none, []⟩) 100 ⟨Option.none, [("text", .str "x")]⟩,
       [⟨0, [100]⟩]⟩ := by
    exact QStep.newQ initQConfig 0 100 [("text", .str "x")]
      (by intro o ho; cases ho) (by intro o ho; cases ho)
  have h2 : QStep
      ⟨writeNode (fun _ => ⟨Option.none, []⟩) 100 ⟨Option.none, [("text", .str "x")]⟩,
       [⟨0, [100]⟩]⟩ demoQConfig := by
    exact QStep.newQ _ 1 101 [("num", .int 1)]
      (by intro o ho; simp at ho; subst ho; decide)
      (by intro o ho; simp at ho; subst ho; decide)
  exact QReachable.step (QReachable.step QReachable.init h1) h2

/-- Witness for C9: composing the two live objects of `demoQConfig` keeps
the first node's connective unset and returns the mutated left operand. -/
theorem q_composition_mutates_left_witness :
    ((qOr demoQConfig.heap ⟨0, [100]⟩ ⟨1, [101]⟩).1 100).operator = Option.none ∧
    (qOr demoQConfig.heap ⟨0, [100]⟩ ⟨1, [101]⟩).2 = ⟨0, [100, 101]⟩ ∧
    ((qOr demoQConfig.heap ⟨0, [100]⟩ ⟨1, [101]⟩).1 101).operator = some .or :=
  ⟨(q_composition_mutates_left.2 demoQConfig demoQConfig_reachable
      ⟨0, [100]⟩ ⟨1, [101]⟩ (by decide) (by decide) (by decide) 100 rfl rfl).1,
   (q_composition_mutates_left.1 demoQConfig.heap ⟨0, [100]⟩ ⟨1, [101]⟩).1,
   ((q_composition_mutates_left.1 demoQConfig.heap ⟨0, [100]⟩ ⟨1, [101]⟩).2.2.1
      101 (by decide)).1⟩

/-! ## C1: lookup validation in `get_arguments` -/

/-- The validation loop accepts a dictionary exactly when every entry is
acceptable. -/
theorem validateRefs_ok_iff (schema : SchemaModel) :
    ∀ rf, validateRefs schema rf = .ok () ↔ RefsOk schema rf := by
  intro rf
  induction rf with
  | nil =>
      constructor
      · intro _ p hp
        cases hp
      · intro _
        rfl
  | cons p rest ih =>
      obtain ⟨f, lus⟩ := p
      unfold validateRefs
      by_cases h1 : schemaHas schema f = false
      · rw [if_pos h1]
        constructor
        · intro h
          cases h
        · intro h
          rw [(h (f, lus) (List.mem_cons_self _ _)).1] at h1
          cases h1
      · rw [if_neg h1]
        have h1t : schemaHas schema f = true := by
          cases hx : schemaHas schema f
          · exact absurd hx h1
          · rfl
        by_cases h2 : lus.all (fun lu => lu.names.all lookupKnown) = false
        · rw [if_pos h2]
          constructor
          · intro h
            cases h
          · intro h
            have h2t : lus.all (fun lu => lu.names.all lookupKnown) = true := by
              rw [List.all_eq_true]
              intro lu hlu
              rw [List.all_eq_true]
              intro n hn
              exact (h (f, lus) (List.mem_cons_self _ _)).2 lu hlu n hn
            rw [h2t] at h2
            cases h2
        · rw [if_neg h2]
          have h2t : lus.all (fun lu => lu.names.all lookupKnown) = true := by
            cases hx : lus.all (fun lu => lu.names.all lookupKnown)
            · exact absurd hx h2
            · rfl
          rw [List.all_eq_true] at h2t
          rw [ih]
          constructor
          · intro hrest p hp
            rcases List.mem_cons.mp hp with rfl | hp
            · refine ⟨h1t, fun lu hlu n hn => ?_⟩
              have := h2t lu hlu
              rw [List.all_eq_true] at this
              exact this n hn
            · exact hrest p hp
          · intro h p hp
            exact h p (List.mem_cons_of_mem _ hp)

/-- `addRef` preserves and reflects validity: the updated dictionary is
valid exactly when the old one was and the new field/lookup pair is
acceptable. -/
theorem refsOk_addRef (schema : SchemaModel) (rf : List (String × List Lookup))
    (f : String) (lu : Lookup) :
    RefsOk schema (addRef rf f lu) ↔
      RefsOk schema rf ∧ schemaHas schema f = true ∧
        ∀ n ∈ lu.names, lookupKnown n = true := by
  unfold addRef
  by_cases hin : rf.any (fun p => p.1 = f)
  · rw [if_pos hin]
    rw [List.any_eq_true] at hin
    obtain ⟨p0, hp0, hpf0⟩ := hin
    have hpf0t : p0.1 = f := of_decide_eq_true hpf0
    constructor
    · intro h
      have hmem0 := List.mem_map_of_mem
        (fun p => if p.1 = f then (p.1, p.2 ++ [lu]) else p) hp0
      simp only at hmem0
      rw [if_pos hpf0t] at hmem0
      have h0 := h _ hmem0
      refine ⟨?_, ?_, ?_⟩
      · intro p hp
        have hmem := List.mem_map_of_mem
          (fun p => if p.1 = f then (p.1, p.2 ++ [lu]) else p) hp
        simp only at hmem
        by_cases hpf : p.1 = f
        · rw [if_pos hpf] at hmem
          have := h _ hmem
          exact ⟨this.1, fun lu1 hlu1 => this.2 lu1 (List.mem_append_left _ hlu1)⟩
        · rw [if_neg hpf] at hmem
          exact h p hmem
      · rw [← hpf0t]
        exact h0.1
      · intro n hn
        exact h0.2 lu (List.mem_append_right _ (List.mem_singleton_self _)) n hn
    · rintro ⟨hrf, hf, hlu⟩ q hq
      obtain ⟨p, hp, rfl⟩ := List.mem_map.mp hq
      by_cases hpf : p.1 = f
      · rw [if_pos hpf]
        have := hrf p hp
        refine ⟨this.1, fun lu1 hlu1 => ?_⟩
        rcases List.mem_append.mp hlu1 with h | h
        · exact this.2 lu1 h
        · rw [List.mem_singleton] at h
          subst h
          exact hlu
      · rw [if_neg hpf]
        exact hrf p hp
  · rw [if_neg hin]
    constructor
    · intro h
      refine ⟨fun p hp => h p (List.mem_append_left _ hp), ?_, ?_⟩
      · exact (h (f, [lu]) (List.mem_append_right _ (List.mem_singleton_self _))).1
      · intro n hn
        exact (h (f, [lu]) (List.mem_append_right _ (List.mem_singleton_self _))).2
          lu (List.mem_singleton_self _) n hn
    · rintro ⟨hrf, hf, hlu⟩ p hp
      rcases List.mem_append.mp hp with h | h
      · exact hrf p h
      · rw [List.mem_singleton] at h
        subst h
        exact ⟨hf, fun lu1 hlu1 => by
          rw [List.mem_singleton] at hlu1
          subst hlu1
          exact hlu⟩

/-- In search mode the dictionary-building loop never fails and is the fold
of `refStep`. -/
theorem buildRefs_search :
    ∀ (kwargs : List (String × PyVal)) (rf : List (String × List Lookup)),
      buildRefs true kwargs rf = .ok (kwargs.foldl refStep rf) := by
  intro kwargs
  induction kwargs with
  | nil =>
      intro rf
      rfl
  | cons kv rest ih =>
      intro rf
      obtain ⟨k, v⟩ := kv
      unfold buildRefs
      by_cases hlen : (kwargSplit k).length > 1
      · rw [if_pos hlen, if_neg (by simp)]
        rw [ih]
        rw [List.foldl_cons]
        have : refStep rf (k, v) = addRef rf ((kwargSplit k).headD "") ⟨(kwargSplit k).tail, v⟩ := by
          unfold refStep kwargField kwargNames
          rw [if_pos hlen]
        rw [this]
      · rw [if_neg hlen]
        rw [ih]
        rw [List.foldl_cons]
        have : refStep rf (k, v) = addRef rf ((kwargSplit k).headD "") ⟨["eq"], v⟩ := by
          unfold refStep kwargField kwargNames
          rw [if_neg hlen]
        rw [this]

/-- Validity of the folded dictionary is exactly validity of every keyword
argument. -/
theorem refsOk_foldl (schema : SchemaModel) :
    ∀ (kwargs : List (String × PyVal)) (rf : List (String × List Lookup)),
      RefsOk schema (kwargs.foldl refStep rf) ↔
        RefsOk schema rf ∧ ∀ kv ∈ kwargs, KwargOk schema kv.1 := by
  intro kwargs
  induction kwargs with
  | nil =>
      intro rf
      constructor
      · intro h
        exact ⟨h, fun kv hkv => by cases hkv⟩
      · intro h
        exact h.1
  | cons kv rest ih =>
      intro rf
      rw [List.foldl_cons]
      rw [ih]
      unfold refStep
      rw [refsOk_addRef]
      constructor
      · rintro ⟨⟨h1, h2, h3⟩, h4⟩
        refine ⟨h1, fun kv1 hkv1 => ?_⟩
        rcases List.mem_cons.mp hkv1 with rfl | h
        · exact ⟨h2, h3⟩
        · exact h4 kv1 h
      · rintro ⟨h1, h2⟩
        exact ⟨⟨h1, (h2 kv (List.mem_cons_self _ _)).1, (h2 kv (List.mem_cons_self _ _)).2⟩,
          fun kv1 h => h2 kv1 (List.mem_cons_of_mem _ h)⟩

/-- In search mode the argument-building loop never fails. -/
theorem buildArgs_search_isOk (rf : List (String × List Lookup)) (id_field : String) :
    ∀ schema : SchemaModel, (buildArgs rf true id_field schema).isOk = true := by
  intro schema
  induction schema with
  | nil => rfl
  | cons p rest ih =>
      obtain ⟨fname, k⟩ := p
      unfold buildArgs
      rw [if_neg (fun hc => absurd hc.2.1 (by decide))]
      cases hrec : buildArgs rf true id_field rest with
      | error e =>
          rw [hrec] at ih
          cases ih
      | ok tail =>
          cases hf : rf.find? (fun p => p.1 = fname) <;> rfl

/-- C1 (amended): `get_arguments` raises `FieldError` if and only if some
keyword argument names a field outside the schema or carries a lookup name
that is not a key of the `LOOKUPS` registry.  The field's data kind is
*never* compared against the registry's allowed-kinds list, so a kind
mismatch such as `gte` on a `Text` field is accepted. -/
theorem get_arguments_fielderror_iff (schema : SchemaModel)
    (kwargs : List (String × PyVal)) (id_field : String) :
    (getArguments schema kwargs true id_field).isOk = true ↔
      ∀ kv ∈ kwargs, KwargOk schema kv.1 := by
  have hchain : (∀ kv ∈ kwargs, KwargOk schema kv.1) ↔
      RefsOk schema (kwargs.foldl refStep []) := by
    rw [refsOk_foldl]
    constructor
    · intro h
      exact ⟨fun p hp => absurd hp (List.not_mem_nil p), h⟩
    · intro h
      exact h.2
  rw [hchain, ← validateRefs_ok_iff]
  unfold getArguments
  rw [buildRefs_search]
  simp only [bind, Except.bind]
  cases hv : validateRefs schema (kwargs.foldl refStep []) with
  | error e =>
      constructor
      · intro h
        cases h
      · intro h
        cases h
  | ok u =>
      constructor
      · intro _
        rfl
      · intro _
        exact buildArgs_search_isOk _ _ _

/-- C1 counterexample: `gte` on the `Text` field passes validation — no
`FieldError` — although the registry lists `gte` as an `Int`-only lookup
and the field's kind is `Text`, contradicting the claimed kind check. -/
theorem lookup_kind_mismatch_not_rejected :
    (getArguments demoSchema [("text__gte", .str "a")] true "id").isOk = true ∧
    LOOKUPS.find? (fun p => p.1 = "gte") = some ("gte", [.intK]) ∧
    demoSchema.find? (fun p => p.1 = "text") = some ("text", .textK) ∧
    FieldKind.textK ∉ [FieldKind.intK] := by
  exact ⟨by decide, by decide, by decide, by decide⟩

/-- Witness for C1: the amended equivalence at concrete inputs — a known
lookup on a schema field is accepted, an unknown lookup name is rejected. -/
theorem get_arguments_fielderror_iff_witness :
    (getArguments demoSchema [("text__allow_boolean", .str "a OR b")] true "id").isOk = true ∧
    ¬ (getArguments demoSchema [("text__nosuchlookup", .str "a")] true "id").isOk = true :=
  ⟨(get_arguments_fielderror_iff demoSchema [("text__allow_boolean", .str "a OR b")] "id").mpr
      (by decide),
   fun h => by
     have := (get_arguments_fielderror_iff demoSchema
       [("text__nosuchlookup", .str "a")] "id").mp h
     exact absurd this (by decide)⟩

/-! ## C2: default-deny escaping in `MatchFilter` -/

/-- Every character of a `str.split(sep)` segment is a non-separator
character of the input or of the accumulator. -/
theorem splitSepAux_chars (sep : Char) :
    ∀ (cs acc seg : List Char), seg ∈ splitSepAux sep cs acc →
      ∀ c ∈ seg, (c ∈ cs ∧ c ≠ sep) ∨ c ∈ acc := by
  intro cs
  induction cs with
  | nil =>
      intro acc seg hseg c hc
      unfold splitSepAux at hseg
      rw [List.mem_singleton] at hseg
      subst hseg
      exact Or.inr (List.mem_reverse.mp hc)
  | cons c0 rest ih =>
      intro acc seg hseg c hc
      unfold splitSepAux at hseg
      by_cases h0 : c0 = sep
      · rw [if_pos h0] at hseg
        rcases List.mem_cons.mp hseg with rfl | hseg
        · exact Or.inr (List.mem_reverse.mp hc)
        · rcases ih [] seg hseg c hc with ⟨h1, h2⟩ | h1
          · exact Or.inl ⟨List.mem_cons_of_mem _ h1, h2⟩
          · cases h1
      · rw [if_neg h0] at hseg
        rcases ih (c0 :: acc) seg hseg c hc with ⟨h1, h2⟩ | h1
        · exact Or.inl ⟨List.mem_cons_of_mem _ h1, h2⟩
        · rcases List.mem_cons.mp h1 with rfl | h1
          · exact Or.inl ⟨List.mem_cons_self _ _, h0⟩
          · exact Or.inr h1

/-- Every token the tokenizer emits is non-empty, and each of its
characters is a character of the input that is either kept or a token
character. -/
theorem tokenize_chars (cat : Char → String) (categories tokenchars : List String)
    (separators : List Char) (input keep : List Char) :
    ∀ t ∈ tokenize cat categories tokenchars separators input keep,
      t ≠ [] ∧ ∀ c ∈ t, c ∈ input ∧
        (keep.contains c = true ∨
          is_tokenchar cat categories tokenchars separators c = true) := by
  intro t ht
  unfold tokenize at ht
  rw [List.mem_filter] at ht
  obtain ⟨hmem, hlen⟩ := ht
  constructor
  · intro hnil
    subst hnil
    simp at hlen
  · intro c hc
    rcases splitSepAux_chars ' ' _ [] t hmem c hc with ⟨h1, h2⟩ | h1
    · rw [List.mem_map] at h1
      obtain ⟨c0, hc0, hceq⟩ := h1
      by_cases hk : keep.contains c0
      · rw [if_pos hk] at hceq
        subst hceq
        exact ⟨hc0, Or.inl hk⟩
      · rw [if_neg hk] at hceq
        by_cases htk : is_tokenchar cat categories tokenchars separators c0
        · rw [if_pos htk] at hceq
          subst hceq
          exact ⟨hc0, Or.inr htk⟩
        · rw [if_neg htk] at hceq
          subst hceq
          exact absurd rfl h2
    · cases h1

/-- With no control keyword and the phrase quote as the only operator, the
quoting loop wraps every quote-free token in quotes. -/
theorem escapeLoop_quotes_all :
    ∀ ts : List (List Char), (∀ t ∈ ts, t.contains '"' = false) →
      escapeLoop [] ['"'] false ts = ts.map (fun t => '"' :: (t ++ ['"'])) := by
  intro ts
  induction ts with
  | nil =>
      intro _
      rfl
  | cons t rest ih =>
      intro h
      have hq : t.contains '"' = false := h t (List.mem_cons_self _ _)
      have hnmem : '"' ∉ t := by
        intro hm
        rw [show t.contains '"' = true by simpa using hm] at hq
        cases hq
      have hhead : ¬ t.head? = some '"' := by
        intro hh
        exact hnmem (List.mem_of_mem_head? (by simp [hh]))
      have hlast : ¬ t.getLast? = some '"' := by
        intro hh
        exact hnmem (List.mem_of_mem_getLast? (by simp [hh]))
      unfold escapeLoop
      dsimp only
      rw [if_neg hhead, if_neg hlast]
      rw [ih (fun t1 ht1 => h t1 (List.mem_cons_of_mem _ ht1))]
      simp [hq, hnmem]

/-- C2 counterexample: the phrase quote is *always* an active control
operator — with no modifier lookup at all, the input `"foo bar"` is
rendered verbatim as a phrase query instead of having its tokens quoted as
literal text, while the quote-free input `foo bar` does get the per-token
literal quoting. -/
theorem phrase_quote_not_neutralized :
    matchEscape ucCategory defaultCategories [] []
      (filterKeywords ["eq"]) (filterOperators ["eq"]) "\"foo bar\"".data =
      "\"foo bar\"".data ∧
    matchEscape ucCategory defaultCategories [] []
      (filterKeywords ["eq"]) (filterOperators ["eq"]) "foo bar".data =
      "\"foo\" \"bar\"".data := by
  exact ⟨by decide, by decide⟩

/-- C2 (amended): with no modifier lookups enabled, for every input value
not containing the phrase-quote character, the rendered operand treats all
control keywords and operators as literal text: every emitted token is the
input token wrapped in quotes (so `AND`, `OR`, `NOT` match only as words),
and the control characters `*`, `^`, `(`, `)` are dropped by tokenization
and never reach the operand.  The phrase-quote character itself is exempt:
it is always active control syntax. -/
theorem match_escape_default_denies_control (value : List Char) (hnq : '"' ∉ value) :
    escapeLoop (filterKeywords ["eq"]) (filterOperators ["eq"]) false
        (tokenize ucCategory defaultCategories [] [] value (filterOperators ["eq"])) =
      (tokenize ucCategory defaultCategories [] [] value (filterOperators ["eq"])).map
        (fun t => '"' :: (t ++ ['"'])) ∧
    ∀ t ∈ tokenize ucCategory defaultCategories [] [] value (filterOperators ["eq"]),
      t ≠ [] ∧ ∀ c ∈ t, c ∈ value ∧ c ∉ ['*', '^', '(', ')', '"'] := by
  have hops : filterOperators ["eq"] = ['"'] := by decide
  have hkw : filterKeywords ["eq"] = [] := by decide
  rw [hops, hkw]
  have hchars : ∀ t ∈ tokenize ucCategory defaultCategories [] [] value ['"'],
      ∀ c ∈ t, c ∈ value ∧
        is_tokenchar ucCategory defaultCategories [] [] c = true := by
    intro t ht c hc
    obtain ⟨-, hall⟩ := tokenize_chars ucCategory defaultCategories [] [] value ['"'] t ht
    obtain ⟨hin, hkc⟩ := hall c hc
    rcases hkc with hk | htc
    · have hcq : c = '"' := by
        have := List.mem_of_elem_eq_true hk
        simpa using this
      subst hcq
      exact absurd hin hnq
    · exact ⟨hin, htc⟩
  constructor
  · apply escapeLoop_quotes_all
    intro t ht
    cases hcontains : t.contains '"' with
    | false => rfl
    | true =>
        have hmem : '"' ∈ t := List.mem_of_elem_eq_true hcontains
        have := (hchars t ht '"' hmem).2
        exact absurd this (by decide)
  · intro t ht
    refine ⟨(tokenize_chars ucCategory defaultCategories [] [] value ['"'] t ht).1, ?_⟩
    intro c hc
    obtain ⟨hin, htc⟩ := hchars t ht c hc
    refine ⟨hin, ?_⟩
    intro hctl
    have hc5 : c = '*' ∨ c = '^' ∨ c = '(' ∨ c = ')' ∨ c = '"' := by
      simpa using hctl
    rcases hc5 with rfl | rfl | rfl | rfl | rfl
    · exact absurd htc (by decide)
    · exact absurd htc (by decide)
    · exact absurd htc (by decide)
    · exact absurd htc (by decide)
    · exact absurd htc (by decide)

/-- Witness for C2: the amended statement evaluated on an input containing
every control keyword and operator except the phrase quote. -/
theorem match_escape_default_denies_control_witness :
    escapeLoop (filterKeywords ["eq"]) (filterOperators ["eq"]) false
        (tokenize ucCategory defaultCategories [] []
          "fran* AND (x OR y) NOT ^z".data (filterOperators ["eq"])) =
      (tokenize ucCategory defaultCategories [] []
          "fran* AND (x OR y) NOT ^z".data (filterOperators ["eq"])).map
        (fun t => '"' :: (t ++ ['"'])) :=
  (match_escape_default_denies_control "fran* AND (x OR y) NOT ^z".data (by decide)).1

end Pocketsearch
